import Mathlib

/-!
# Verification of the trigeminal-neuralgia Cosmos reporting pipeline

Shallow embedding of the data-cleaning, aggregation and statistical layer of
the repository (`src/utils/data_cleaning.py`, `src/data/us_state_populations.py`,
`src/config/analysis_config.py`, `generate_publication_materials.py`), with
theorems settling the specification claims about it.

Conventions of the embedding:
* A pandas cell is `Cell`: `null` stands for NaN/None, `str` for a Python
  string value, `num` for a numeric value (modelled exactly as a rational).
* A DataFrame is a list of named columns, each a list of cells
  (`DF := List (String × List Cell)`); row alignment is positional.
* Numeric library routines with no exact rational meaning
  (`pd.to_numeric`'s string parser, `scipy.stats.norm.cdf`, `norm.ppf`,
  `chi2.sf`) are taken as explicit function parameters; every theorem below
  either holds for all instantiations or does not depend on them.
* Fallible Python code (exceptions) is embedded with `Except String`.
-/

namespace TNCosmos

/-- A pandas cell: NaN/missing, a string, or a number (exact rational). -/
inductive Cell where
  | null : Cell
  | str (s : String) : Cell
  | num (q : ℚ) : Cell
deriving DecidableEq

/-- A DataFrame: named columns of cells, rows aligned positionally. -/
abbrev DF := List (String × List Cell)

/-- Column names of a DataFrame (`df.columns.tolist()`). -/
def colNames (d : DF) : List String := d.map Prod.fst

/-- `df[col] = cells` for every column labelled `col` (pandas assignment
touches all columns carrying the label). -/
def setColVal (d : DF) (col : String) (f : List Cell → List Cell) : DF :=
  d.map fun p => if p.1 = col then (p.1, f p.2) else p

/-! ## Small-cell imputation (`impute_small_cells`, data_cleaning.py lines 32-78)

The source does, for each target column present in the frame:
`df[col] = df[col].replace(small_cell_value, imputation_value)` and then
`df[col] = pd.to_numeric(df[col], errors='ignore')`.

`pd.to_numeric(..., errors='ignore')` converts the whole column when every
entry parses as a number and returns the column unchanged otherwise.  Its
per-string parser is the parameter `parse`. -/

/-- One cell of `Series.replace(small_cell_value, imputation_value)`. -/
def replaceCell (sentinel : String) (surrogate : ℚ) (c : Cell) : Cell :=
  if c = Cell.str sentinel then Cell.num surrogate else c

/-- `Series.replace(small_cell_value, imputation_value)`. -/
def replaceSentinel (sentinel : String) (surrogate : ℚ) (cells : List Cell) : List Cell :=
  cells.map (replaceCell sentinel surrogate)

/-- Whether `pd.to_numeric` can convert this cell (NaN and numbers pass
through; a string must parse). -/
def cellParses (parse : String → Option ℚ) : Cell → Bool
  | Cell.null => true
  | Cell.str s => (parse s).isSome
  | Cell.num _ => true

/-- The converted value of a cell under `pd.to_numeric` (meaningful when
`cellParses` holds; NaN stays NaN). -/
def convertCell (parse : String → Option ℚ) : Cell → Cell
  | Cell.null => Cell.null
  | Cell.str s => match parse s with
      | some q => Cell.num q
      | none => Cell.str s
  | Cell.num q => Cell.num q

/-- `pd.to_numeric(series, errors='ignore')`: convert the whole column when
every entry parses, otherwise return the input unchanged. -/
def toNumericCol (parse : String → Option ℚ) (cells : List Cell) : List Cell :=
  if cells.all (cellParses parse) then cells.map (convertCell parse) else cells

/-- The body of the per-column loop of `impute_small_cells`: replace the
sentinel, then attempt numeric conversion. -/
def imputeCol (parse : String → Option ℚ) (sentinel : String) (surrogate : ℚ)
    (cells : List Cell) : List Cell :=
  toNumericCol parse (replaceSentinel sentinel surrogate cells)

/-- `impute_small_cells(df, columns, small_cell_value, imputation_value)`:
copies the frame, takes all columns when `columns is None`, and runs the
per-column loop (a column named in `columns` but absent from the frame is
silently skipped, which the fold realises because `setColVal` touches only
columns that exist). -/
def impute_small_cells (parse : String → Option ℚ) (d : DF)
    (columns : Option (List String)) (sentinel : String) (surrogate : ℚ) : DF :=
  let cols := columns.getD (colNames d)
  cols.foldl (fun dd col => setColVal dd col (imputeCol parse sentinel surrogate)) d

/-! ## Geography reference (`analysis_config.py` lines 167-188)

`CENSUS_REGIONS` literally, and `STATE_TO_REGION` derived from it by the same
flattening loop the source runs. -/

/-- `CENSUS_REGIONS`: region name to member jurisdictions. -/
def census_regions : List (String × List String) :=
  [("East North Central", ["Ohio", "Michigan", "Illinois", "Wisconsin", "Indiana"]),
   ("West North Central", ["Minnesota", "Iowa", "Missouri", "Kansas", "Nebraska",
                           "North Dakota", "South Dakota"]),
   ("Middle Atlantic", ["Pennsylvania", "New York", "New Jersey"]),
   ("New England", ["Massachusetts", "Connecticut", "Maine", "New Hampshire",
                    "Rhode Island", "Vermont"]),
   ("South Atlantic", ["Florida", "North Carolina", "Virginia", "South Carolina",
                       "Georgia", "Maryland", "West Virginia", "Delaware",
                       "District of Columbia"]),
   ("East South Central", ["Kentucky", "Mississippi", "Tennessee", "Alabama"]),
   ("West South Central", ["Texas", "Louisiana", "Arkansas", "Oklahoma"]),
   ("Pacific", ["California", "Oregon", "Washington", "Hawaii", "Alaska"]),
   ("Mountain", ["Colorado", "Arizona", "Utah", "Idaho", "Nevada", "Montana",
                 "New Mexico", "Wyoming"])]

/-- `STATE_TO_REGION`: the reverse mapping, built by the source's double loop
`for region, states in CENSUS_REGIONS.items(): for state in states: ...`. -/
def state_to_region : List (String × String) :=
  census_regions.foldl (fun acc p => acc ++ p.2.map (fun s => (s, p.1))) []

/-! ## Region aggregation (`add_census_region` + `create_table3` lines 214-259)

`add_census_region` tags each row with `df[state_column].map(STATE_TO_REGION)`;
an absent key yields NaN (here `none`).  `create_table3` then runs
`df.groupby('census_region').agg(sum)`, which by pandas default drops rows
with a NaN group key and sorts the remaining keys.  A row is the jurisdiction
name together with the numeric values of the aggregated columns (the
medication/procedure count columns followed by `total`), in a fixed order. -/

/-- One per-jurisdiction row of counts (aggregated-column values in a fixed
column order). -/
structure CountRow where
  state : String
  vals : List ℚ
deriving DecidableEq

/-- Pointwise sum of two value vectors (missing entries count as 0; the
pipeline only ever sums vectors of equal length). -/
def addVals : List ℚ → List ℚ → List ℚ
  | [], ys => ys
  | x :: xs, [] => x :: xs
  | x :: xs, y :: ys => (x + y) :: addVals xs ys

/-- `df['census_region'] = df[state_column].map(STATE_TO_REGION)`: tag each
row with its (possibly missing) region. -/
def add_census_region_rows (mapping : List (String × String)) (rows : List CountRow) :
    List (Option String × List ℚ) :=
  rows.map fun r => (mapping.lookup r.state, r.vals)

/-- Sum of the value vectors of all rows tagged with region `k`. -/
def sumFor (k : String) (tagged : List (Option String × List ℚ)) : List ℚ :=
  tagged.foldr (fun p acc => if p.1 = some k then addVals p.2 acc else acc) []

/-- The group keys of `groupby('census_region')`: distinct non-null tags,
sorted (pandas `groupby` default `sort=True`, `dropna=True`). -/
def groupKeys (tagged : List (Option String × List ℚ)) : List String :=
  List.insertionSort (· ≤ ·) (tagged.filterMap Prod.fst).dedup

/-- `df.groupby('census_region').agg({col: 'sum', ...})` applied after
`add_census_region`: per-region pointwise sums of the aggregated columns. -/
def region_aggregate (mapping : List (String × String)) (rows : List CountRow) :
    List (String × List ℚ) :=
  let tagged := add_census_region_rows mapping rows
  (groupKeys tagged).map fun k => (k, sumFor k tagged)

/-- `check_missing_states` (data_cleaning.py lines 371-393): roster
jurisdictions (keys of `STATE_TO_REGION`) that do not occur in the data,
sorted.  Note the direction: it reports mapped states absent from the data,
not data states absent from the mapping. -/
def check_missing_states (mapping : List (String × String)) (present : List String) :
    List String :=
  List.insertionSort (· ≤ ·)
    (((mapping.map Prod.fst).dedup).filter fun s => !(present.contains s))

/-! ## Populations and per-capita rates
(`us_state_populations.py` and `create_table_per_capita`, lines 127-151)

`create_table_per_capita` computes
`df['population'] = df['state'].map(US_STATE_POPULATIONS)` — an unknown
state yields NaN — and then `df['per_100k'] = df['total'] / df['population']
* 100000`, where arithmetic on NaN silently yields NaN.  No check of any
kind is performed and nothing is raised. -/

/-- `US_STATE_POPULATIONS` (2024 Census Bureau estimates), literally. -/
def us_state_populations : List (String × ℚ) :=
  [("Alabama", 5108468), ("Alaska", 733406), ("Arizona", 7431344),
   ("Arkansas", 3067732), ("California", 38965193), ("Colorado", 5877610),
   ("Connecticut", 3617176), ("Delaware", 1031890),
   ("District of Columbia", 678972), ("Florida", 23372215),
   ("Georgia", 11029227), ("Hawaii", 1435138), ("Idaho", 1964726),
   ("Illinois", 12516863), ("Indiana", 6862199), ("Iowa", 3207004),
   ("Kansas", 2940546), ("Kentucky", 4526154), ("Louisiana", 4573749),
   ("Maine", 1395722), ("Maryland", 6180253), ("Massachusetts", 7001399),
   ("Michigan", 10037261), ("Minnesota", 5737915), ("Mississippi", 2939690),
   ("Missouri", 6196156), ("Montana", 1132812), ("Nebraska", 1978379),
   ("Nevada", 3194176), ("New Hampshire", 1402054), ("New Jersey", 9290841),
   ("New Mexico", 2114371), ("New York", 19571216),
   ("North Carolina", 10835491), ("North Dakota", 783926),
   ("Ohio", 11785935), ("Oklahoma", 4053824), ("Oregon", 4233358),
   ("Pennsylvania", 12961683), ("Rhode Island", 1095962),
   ("South Carolina", 5373555), ("South Dakota", 919318),
   ("Tennessee", 7126489), ("Texas", 30503301), ("Utah", 3417734),
   ("Vermont", 647464), ("Virginia", 8683619), ("Washington", 7812880),
   ("West Virginia", 1770071), ("Wisconsin", 5910955), ("Wyoming", 584057)]

/-- `get_population` (us_state_populations.py lines 80-82):
`US_STATE_POPULATIONS.get(state_name, None)`. -/
def get_population (state_name : String) : Option ℚ :=
  us_state_populations.lookup state_name

/-- The per-capita computation of `create_table_per_capita` for one row:
`total / population * 100000`, where a missing population (NaN) silently
propagates to a NaN rate. -/
def per_capita (state : String) (total : ℚ) : Option ℚ :=
  (get_population state).map fun p => total / p * 100000

/-! ## Chi-square test of independence (`create_table4`, lines 261-299)

`create_table4` passes the aggregated region-by-category count table directly
to `scipy.stats.chi2_contingency` (default `correction=True`).  The scipy
routine, embedded here from its documented algorithm:

1. raises `ValueError` if any observed entry is negative;
2. raises `ValueError` if the table has size 0;
3. computes `expected[i][j] = rowsum[i] * colsum[j] / total` in floating
   point — when `total = 0` this is `0/0 = nan` (numpy emits a warning, not
   an exception), modelled as `none`;
4. raises `ValueError` ("zero element in the expected frequencies") if any
   expected entry equals 0 — note `nan == 0` is false in IEEE arithmetic, so
   an all-NaN expected table passes this check;
5. with `dof = (r-1)(c-1)`: if `dof = 0` returns statistic 0 and p-value 1;
   if `dof = 1` and `correction`, applies the Yates adjustment
   `observed + min(0.5, |expected-observed|) * sign(expected-observed)`;
   then sums the Pearson terms `(observed-expected)^2 / expected` (NaN
   propagates) and derives the p-value from the statistic by the chi-square
   survival function, taken abstractly as the parameter `sf`.

Arithmetic on `Option ℚ` models the only non-finite float the reachable
paths produce, the NaN from `0/0` (after step 1 a zero total forces every
numerator to be zero). -/

/-- The result triple of `chi2_contingency` that `create_table4` consumes:
statistic, p-value (NaN as `none`) and degrees of freedom. -/
structure Chi2Result where
  statistic : Option ℚ
  pvalue : Option ℚ
  dof : ℕ
deriving DecidableEq

/-- Number of columns of the table (width of the first row; the tables the
pipeline builds are rectangular). -/
def ncolsOf (m : List (List ℤ)) : ℕ := (m.headD []).length

/-- Grand total of the table. -/
def grandTotal (m : List (List ℤ)) : ℤ := (m.map fun r => r.sum).sum

/-- Sum of row `i`. -/
def rowSum (m : List (List ℤ)) (i : ℕ) : ℤ := (m.getD i []).sum

/-- Sum of column `j`. -/
def colSum (m : List (List ℤ)) (j : ℕ) : ℤ := (m.map fun row => row.getD j 0).sum

/-- Float division producing NaN (`none`) on a zero divisor; on the reachable
paths the numerator is then also zero (`0/0 = nan`). -/
def fdiv (a b : ℤ) : Option ℚ := if b = 0 then none else some ((a : ℚ) / (b : ℚ))

/-- `scipy.stats.contingency.expected_freq`:
`expected[i][j] = rowsum[i] * colsum[j] / total`. -/
def expectedFreq (m : List (List ℤ)) : List (List (Option ℚ)) :=
  (List.range m.length).map fun i =>
    (List.range (ncolsOf m)).map fun j =>
      fdiv (rowSum m i * colSum m j) (grandTotal m)

/-- `np.sign` on a rational. -/
def qsign (q : ℚ) : ℚ := if 0 < q then 1 else if q < 0 then -1 else 0

/-- One Pearson term `(observed - expected)^2 / expected`, with the Yates
continuity adjustment of the observed count when `useYates`; a NaN expected
value propagates. -/
def pearsonTerm (useYates : Bool) (o : ℤ) (e : Option ℚ) : Option ℚ :=
  match e with
  | none => none
  | some ev =>
    let oq : ℚ := (o : ℚ)
    let oq2 := if useYates then oq + min (1/2) |ev - oq| * qsign (ev - oq) else oq
    some ((oq2 - ev) ^ 2 / ev)

/-- Sum of a list of possibly-NaN values (NaN propagates). -/
def optSum (l : List (Option ℚ)) : Option ℚ :=
  l.foldr (fun a acc =>
    match a, acc with
    | some x, some y => some (x + y)
    | _, _ => none) (some 0)

/-- `scipy.stats.chi2_contingency(observed, correction)` as called by
`create_table4`; `sf` is the chi-square survival function
(`1 - chi2.cdf`), kept abstract. -/
def chi2_contingency (sf : ℕ → ℚ → ℚ) (observed : List (List ℤ))
    (correction : Bool) : Except String Chi2Result :=
  if observed.any (fun row => row.any fun v => decide (v < 0)) then
    Except.error "All values in observed must be nonnegative."
  else if (observed.map List.length).sum = 0 then
    Except.error "No data; observed has size 0."
  else
    let expected := expectedFreq observed
    if expected.any (fun row => row.any fun e => e == some (0 : ℚ)) then
      Except.error "The internally computed table of expected frequencies has a zero element."
    else
      let dof := (observed.length - 1) * (ncolsOf observed - 1)
      if dof = 0 then Except.ok ⟨some 0, some 1, 0⟩
      else
        let useYates := correction && dof == 1
        let terms :=
          (List.zipWith (fun orow erow => List.zipWith (pearsonTerm useYates) orow erow)
            observed expected).flatten
        let stat := optSum terms
        Except.ok ⟨stat, stat.map (sf dof), dof⟩

/-! ## Wilson interval and z-test
(`proportion_ci` lines 67-76, `z_test_proportion` lines 85-93)

Both are embedded over ℝ.  The normal critical value
`z = stats.norm.ppf(1 - (1-confidence)/2)` of `proportion_ci` is an
abstract nonnegative parameter `z` (0.95 confidence gives z about 1.96);
`stats.norm.cdf` of the z-test is the abstract parameter `cdf`. -/

/-- `proportion_ci(x, n, confidence)`: Wilson score interval on the
percentage scale, `(0, 0)` when `n == 0`. -/
noncomputable def proportion_ci (x n z : ℝ) : ℝ × ℝ :=
  if n = 0 then (0, 0)
  else
    let p_hat := x / n
    let denominator := 1 + z ^ 2 / n
    let center := (p_hat + z ^ 2 / (2 * n)) / denominator
    let margin := z * Real.sqrt ((p_hat * (1 - p_hat) + z ^ 2 / (4 * n)) / n) / denominator
    (max 0 (center - margin) * 100, min 1 (center + margin) * 100)

/-- `z_test_proportion(x, n, p0)`.  The source computes `p_hat = x / n` and
`se = sqrt(p0*(1-p0)/n)` BEFORE its `se == 0` guard, so `n = 0` hits a
division by zero (a `ZeroDivisionError` on Python scalars; NaN/inf on numpy
floats) and the guard can only fire for `n ≠ 0` with `p0*(1-p0) = 0`
(`Real.sqrt q = 0` exactly when `q ≤ 0`; numpy would return NaN for a
negative radicand, which no caller produces since `p0` is a proportion). -/
noncomputable def z_test_proportion (cdf : ℝ → ℝ) (x n p0 : ℝ) :
    Except String (ℝ × ℝ) :=
  if n = 0 then Except.error "ZeroDivisionError"
  else
    let p_hat := x / n
    let se := Real.sqrt (p0 * (1 - p0) / n)
    if se = 0 then Except.ok (0, 1)
    else
      let z := (p_hat - p0) / se
      Except.ok (z, 2 * (1 - cdf |z|))

/-! ## Column-name normalizer (`clean_column_names`, lines 81-119)

The source lower-cases, then replaces each of space, `-`, `/` by `_`,
DELETES each of `(`, `)`, `,`, `.`, collapses runs of underscores by
iterating `replace('__', '_')` until no `__` remains, and strips leading
and trailing underscores.  `str.lower` is modelled by `Char.toLower`
(ASCII case-folding; the pipeline's headers are ASCII). -/

/-- The sequential single-character replacements of the source collapsed to
one pass: space, hyphen and slash become `_`; the four deleted characters
become `none`. -/
def mapReplace (c : Char) : Option Char :=
  if c = ' ' ∨ c = '-' ∨ c = '/' then some '_'
  else if c = '(' ∨ c = ')' ∨ c = ',' ∨ c = '.' then none
  else some c

/-- Whether the list contains two adjacent underscores (`'__' in col_str`). -/
def hasDouble : List Char → Bool
  | c₁ :: c₂ :: rest => (c₁ = '_' && c₂ = '_') || hasDouble (c₂ :: rest)
  | _ => false

/-- One pass of `str.replace('__', '_')`: non-overlapping left-to-right. -/
def replacePairUnderscore : List Char → List Char
  | [] => []
  | [c] => [c]
  | c₁ :: c₂ :: rest =>
    if c₁ = '_' ∧ c₂ = '_' then '_' :: replacePairUnderscore rest
    else c₁ :: replacePairUnderscore (c₂ :: rest)

/-- The `while '__' in col_str:` loop, fuelled; each productive pass strictly
shortens the list, so `l.length` steps always suffice. -/
def collapseFuel : ℕ → List Char → List Char
  | 0, l => l
  | fuel + 1, l =>
    if hasDouble l then collapseFuel fuel (replacePairUnderscore l) else l

/-- The underscore-collapsing loop of the source. -/
def collapseUnderscores (l : List Char) : List Char := collapseFuel l.length l

/-- `str.strip('_')`, trailing part: drop the maximal run of underscores at
the end (the result is a prefix of the input). -/
def dropTrailingUnderscores : List Char → List Char
  | [] => []
  | c :: rest =>
    let r := dropTrailingUnderscores rest
    if r.isEmpty then (if c = '_' then [] else [c]) else c :: r

/-- `str.strip('_')`. -/
def stripUnderscores (l : List Char) : List Char :=
  dropTrailingUnderscores (l.dropWhile fun c => c == '_')

/-- The per-header normalizer inside `clean_column_names`. -/
def clean_column_name (s : String) : String :=
  ⟨stripUnderscores (collapseUnderscores ((s.data.map Char.toLower).filterMap mapReplace))⟩

/-- `clean_column_names(df)`: rename every column. -/
def clean_column_names (d : DF) : DF :=
  d.map fun p => (clean_column_name p.1, p.2)

/-- Modelled from the spec (for comparison only, not from the source): the
normalizer the specification describes, in which every run of whitespace and
of the punctuation `- / ( ) , .` is collapsed to a single underscore. -/
def spec_normalize (s : String) : String :=
  ⟨stripUnderscores (collapseUnderscores (s.data.map fun c =>
    if c.isWhitespace ∨ c = '-' ∨ c = '/' ∨ c = '(' ∨ c = ')' ∨ c = ',' ∨ c = '.'
    then '_' else c.toLower))⟩

/-- The character classes the amended C6 property speaks about: the
characters the normalizer replaces or deletes. -/
def isReplacedChar (c : Char) : Bool :=
  c = ' ' || c = '-' || c = '/' || c = '(' || c = ')' || c = ',' || c = '.'

/-- A canonical token in the sense of the amended C6 claim: no replaced or
deleted character survives, no ASCII upper-case letter, no two adjacent
underscores, and no leading or trailing underscore. -/
def goodToken (s : String) : Bool :=
  s.data.all (fun c => !(isReplacedChar c) && !c.isUpper) &&
  !(hasDouble s.data) &&
  !(s.data.head?.elim false fun c => c = '_') &&
  !(s.data.getLast?.elim false fun c => c = '_')

/-! ## Medication and procedure cleaning
(`clean_medication_data` lines 195-252, `clean_procedure_data` lines 259-305) -/

/-- The column of a DataFrame carrying a label (`df[col]`). -/
def getColVal (d : DF) (col : String) : List Cell :=
  (((d.find? fun p => p.1 == col).map Prod.snd).getD [])

/-- `Series.ffill()`: forward fill of NaN cells (leading NaNs stay NaN). -/
def ffillGo (carry : Option Cell) : List Cell → List Cell
  | [] => []
  | c :: rest =>
    if c = Cell.null then (carry.getD Cell.null) :: ffillGo carry rest
    else c :: ffillGo (some c) rest

/-- `df[state_col].ffill()`. -/
def ffill (cells : List Cell) : List Cell := ffillGo none cells

/-- `Series.replace(dict)`: replace string cells that are keys of the
mapping. -/
def replaceByMap (mapping : List (String × String)) (cells : List Cell) : List Cell :=
  cells.map fun c =>
    match c with
    | Cell.str s =>
      match mapping.lookup s with
      | some t => Cell.str t
      | none => Cell.str s
    | c => c

/-- The medication-name standardization table of `clean_medication_data`. -/
def medication_mapping : List (String × String) :=
  [("Carbmazapine or Oxcarbmazapine", "Carbamazepine/Oxcarbazepine"),
   ("Carbamazepine or Oxcarbazepine", "Carbamazepine/Oxcarbazepine"),
   ("baclofen", "Baclofen"),
   ("gabapentin", "Gabapentin"),
   ("lamotrigine", "Lamotrigine"),
   ("pregabalin", "Pregabalin"),
   ("onabotulinumtoxinA", "OnabotulinumtoxinA"),
   ("None of the above", "None of the above")]

/-- The CPT-description-to-name table of `clean_procedure_data`. -/
def procedure_mapping : List (String × String) :=
  [("CRNEC SOPL EXPLORATION/DECOMPRESSION CRANIAL NRV 61458", "MVD"),
   ("SRS 61796 and 98", "SRS"),
   ("CREATE LESION STRTCTC PRQ NEUROLYTIC GASSERIAN 61790", "Rhizotomy"),
   ("Glycerol Rhizotomy", "Glycerol Rhizotomy"),
   ("CHEMODNRVTJ MUSC MUSC INNERVATED FACIAL NRV UNIL 64612", "Botox"),
   ("None of the above", "None of the above")]

/-- The count-column sniffing of `clean_medication_data`: first ten non-null
entries contain a number or the sentinel string. -/
def colHasCounts (sentinel : String) (cells : List Cell) : Bool :=
  ((cells.filter fun c => decide (c ≠ Cell.null)).take 10).any fun c =>
    match c with
    | Cell.num _ => true
    | Cell.str s => s == sentinel
    | Cell.null => false

/-- `clean_medication_data`'s `if count_col is None:` inference loop: the
first column other than the state and medication columns that looks like a
count column.  Its result is bound but never used afterwards by the source. -/
def infer_count_col (state_col med_col sentinel : String) (d : DF) : Option String :=
  ((d.find? fun p =>
      decide (p.1 ≠ state_col) && decide (p.1 ≠ med_col) && colHasCounts sentinel p.2).map
    Prod.fst)

/-- `clean_medication_data` after its initial `df = df.copy()`: forward-fill
the state column when present, run the (unused) count-column inference, and
standardize the medication labels when that column is present. -/
def clean_medication_data_core (state_col med_col : String) (count_col : Option String)
    (sentinel : String) (d : DF) : DF :=
  let d1 := if (colNames d).contains state_col then setColVal d state_col ffill else d
  let _cc := match count_col with
    | some c => some c
    | none => infer_count_col state_col med_col sentinel d1
  if (colNames d1).contains med_col then
    setColVal d1 med_col (replaceByMap medication_mapping)
  else d1

/-- `clean_procedure_data` after its initial `df = df.copy()`: forward-fill
the state column when present and rename CPT-description columns. -/
def clean_procedure_data_core (state_col : String) (d : DF) : DF :=
  let d1 := if (colNames d).contains state_col then setColVal d state_col ffill else d
  d1.map fun p =>
    (match procedure_mapping.lookup p.1 with
     | some t => t
     | none => p.1, p.2)

/-- `df['census_region'] = df[state_column].map(STATE_TO_REGION)` on the
column-oriented frame (overwrite the column if present, else append it);
`Series.map(dict)` sends values absent from the dict — including NaN — to
NaN. -/
def add_census_region_core (state_col : String) (mapping : List (String × String))
    (d : DF) : DF :=
  let mapped := (getColVal d state_col).map fun c =>
    match c with
    | Cell.str s =>
      match mapping.lookup s with
      | some r => Cell.str r
      | none => Cell.null
    | _ => Cell.null
  if (colNames d).contains "census_region" then
    setColVal d "census_region" (fun _ => mapped)
  else d ++ [("census_region", mapped)]

/-! ## The heap model for the frame claim (C10)

Python passes DataFrames by reference; each cleaning function begins with
`df = df.copy()` and mutates only the copy.  The heap holds the frames, a
reference is an index, `copy` allocates, and each function is the
allocation of a copy followed by the pure transformation of that copy. -/

/-- The heap of live DataFrames; a reference is an index into it. -/
abbrev Heap := List DF

/-- Dereference. -/
def heapGet (h : Heap) (r : ℕ) : DF := h.getD r []

/-- In-place update of the referent. -/
def heapSet (h : Heap) (r : ℕ) (v : DF) : Heap := h.set r v

/-- `df.copy()`: allocate a fresh frame with the same value. -/
def alloc (h : Heap) (v : DF) : Heap × ℕ :=
  (h ++ [v], h.length)

/-- `impute_small_cells` as the caller sees it: copy, transform the copy,
return the new reference. -/
def run_impute_small_cells (parse : String → Option ℚ) (h : Heap) (r : ℕ)
    (columns : Option (List String)) (sentinel : String) (surrogate : ℚ) : Heap × ℕ :=
  let (h1, r1) := alloc h (heapGet h r)
  (heapSet h1 r1 (impute_small_cells parse (heapGet h r) columns sentinel surrogate), r1)

/-- `clean_column_names` as the caller sees it. -/
def run_clean_column_names (h : Heap) (r : ℕ) : Heap × ℕ :=
  let (h1, r1) := alloc h (heapGet h r)
  (heapSet h1 r1 (clean_column_names (heapGet h r)), r1)

/-- `add_census_region` as the caller sees it. -/
def run_add_census_region (h : Heap) (r : ℕ) (state_col : String)
    (mapping : List (String × String)) : Heap × ℕ :=
  let (h1, r1) := alloc h (heapGet h r)
  (heapSet h1 r1 (add_census_region_core state_col mapping (heapGet h r)), r1)

/-- `clean_medication_data` as the caller sees it. -/
def run_clean_medication_data (h : Heap) (r : ℕ) (state_col med_col : String)
    (count_col : Option String) (sentinel : String) : Heap × ℕ :=
  let (h1, r1) := alloc h (heapGet h r)
  (heapSet h1 r1 (clean_medication_data_core state_col med_col count_col sentinel
    (heapGet h r)), r1)

/-- `clean_procedure_data` as the caller sees it. -/
def run_clean_procedure_data (h : Heap) (r : ℕ) (state_col : String) : Heap × ℕ :=
  let (h1, r1) := alloc h (heapGet h r)
  (heapSet h1 r1 (clean_procedure_data_core state_col (heapGet h r)), r1)

/-! # Theorems settling the claims -/

/-- C9: `proportion_ci` with total `n = 0` returns the degenerate `(0, 0)`
pair for every count `x` (and every critical value `z`), without error. -/
theorem proportion_ci_zero_n : ∀ x z : ℝ, proportion_ci x 0 z = (0, 0) := by
  intro x z
  simp [proportion_ci]

/-- C1 counterexample: at `n = 0` (count 0, reference proportion 1/2) the
z-test hits the division `p_hat = x / n` before its `se == 0` guard and
raises a division-by-zero error instead of returning the claimed
`(z, p) = (0, 1.0)`.  The `cdf` parameter is irrelevant on this path and is
instantiated arbitrarily. -/
theorem z_test_n_zero_counterexample :
    z_test_proportion (fun _ => 0) 0 0 (1 / 2) ≠ Except.ok ((0 : ℝ), (1 : ℝ)) := by
  simp [z_test_proportion]

/-- C1 amended: for sample size `n = 0` the z-test raises a division-by-zero
error — it computes `p_hat = x / n` before any guard — for every count and
every reference proportion; the `(0, 1.0)` degenerate return is reachable
only with `n ≠ 0` (when `p0*(1-p0) = 0`). -/
theorem z_test_n_zero_raises :
    ∀ (cdf : ℝ → ℝ) (x p0 : ℝ),
      z_test_proportion cdf x 0 p0 = Except.error "ZeroDivisionError" := by
  intro cdf x p0
  simp [z_test_proportion]

/-- C3 counterexample: for a jurisdiction with no known population
("Guam", count 7) the per-capita operation does not fail with any
input-contract violation: the population lookup silently yields a missing
value and the division silently yields a missing (NaN) rate.  The embedded
operation is total — there is no error path at all in the source. -/
theorem per_capita_unknown_counterexample :
    get_population "Guam" = none ∧ per_capita "Guam" 7 = none := ⟨rfl, rfl⟩

/-- Every population in the source's table is positive. -/
lemma get_population_pos (s : String) (p : ℚ) (h : get_population s = some p) :
    0 < p := by
  have hall : us_state_populations.all (fun q => decide (0 < q.2)) = true := by decide
  unfold get_population at h
  obtain ⟨l₁, l₂, hsplit, -⟩ := List.lookup_eq_some_iff.mp h
  have hmem : (s, p) ∈ us_state_populations := by
    rw [hsplit]
    exact List.mem_append.mpr (Or.inr (List.mem_cons_self _ _))
  simpa using List.all_eq_true.mp hall _ hmem

/-- C3 amended: the per-capita step performs no contract check: a known
jurisdiction (whose table population is always positive) gets
`count / population * 100000`, and an unknown jurisdiction silently gets a
missing (NaN) rate; no error is ever raised. -/
theorem per_capita_no_contract_check (s : String) (c : ℚ) :
    (get_population s = none → per_capita s c = none) ∧
    ∀ p : ℚ, get_population s = some p →
      0 < p ∧ per_capita s c = some (c / p * 100000) := by
  refine ⟨fun h => ?_, fun p hp => ⟨get_population_pos s p hp, ?_⟩⟩
  · simp [per_capita, h]
  · simp [per_capita, hp]

/-- Witness for C3's amended theorem at the known state "Ohio" and the
unknown jurisdiction "Guam". -/
theorem per_capita_no_contract_check_witness :
    (0 < (11785935 : ℚ) ∧ per_capita "Ohio" 7 = some (7 / 11785935 * 100000)) ∧
    per_capita "Guam" 7 = none :=
  ⟨(per_capita_no_contract_check "Ohio" 7).2 11785935 rfl,
   (per_capita_no_contract_check "Guam" 7).1 rfl⟩

/-- C2 counterexample: a jurisdiction absent from the region mapping
("Guam", count 7) is silently dropped by the aggregation: the output is
exactly the aggregate of the remaining rows, and nothing in the result
records the unmapped jurisdiction — no list of unmapped jurisdictions is
surfaced anywhere in the operation's output type. -/
theorem region_aggregate_unmapped_counterexample :
    state_to_region.lookup "Guam" = none ∧
    region_aggregate state_to_region [⟨"Guam", [7]⟩, ⟨"Ohio", [3]⟩] =
      region_aggregate state_to_region [⟨"Ohio", [3]⟩] ∧
    region_aggregate state_to_region [⟨"Guam", [7]⟩, ⟨"Ohio", [3]⟩] =
      [("East North Central", [3])] := by
  refine ⟨rfl, rfl, rfl⟩

/-- C2 amended: a row whose jurisdiction is absent from the mapping receives
a null region tag and is silently excluded from the per-region sums: the
aggregate of the input with the unmapped row equals the aggregate without
it, and no report of the omission is produced (the separate
`check_missing_states` utility reports roster states absent from the data,
not data states absent from the mapping). -/
theorem region_aggregate_drops_unmapped
    (mapping : List (String × String)) (r : CountRow) (rows : List CountRow)
    (h : mapping.lookup r.state = none) :
    region_aggregate mapping (r :: rows) = region_aggregate mapping rows := by
  simp [region_aggregate, add_census_region_rows, groupKeys, sumFor, h]

/-- Witness for C2's amended theorem: the unmapped row ("Guam", count 7)
in front of a mapped row ("Ohio", count 3). -/
theorem region_aggregate_drops_unmapped_witness :
    state_to_region.lookup (CountRow.state ⟨"Guam", [7]⟩) = none ∧
    region_aggregate state_to_region [⟨"Guam", [7]⟩, ⟨"Ohio", [3]⟩] =
      region_aggregate state_to_region [⟨"Ohio", [3]⟩] :=
  ⟨rfl, region_aggregate_drops_unmapped state_to_region ⟨"Guam", [7]⟩ [⟨"Ohio", [3]⟩] rfl⟩

/-- Replacing the sentinel twice in a cell is the same as once (the
surrogate is numeric, never the sentinel string). -/
lemma replaceCell_replaceCell (sv : String) (iv : ℚ) (c : Cell) :
    replaceCell sv iv (replaceCell sv iv c) = replaceCell sv iv c := by
  unfold replaceCell
  by_cases h : c = Cell.str sv
  · simp [h]
  · simp [h]

/-- A convertible cell converts to a non-string cell. -/
lemma convert_not_str (parse : String → Option ℚ) (c : Cell)
    (h : cellParses parse c = true) : ∀ s, convertCell parse c ≠ Cell.str s := by
  cases c with
  | null => simp [convertCell]
  | num q => simp [convertCell]
  | str s =>
    simp only [cellParses] at h
    obtain ⟨q, hq⟩ := Option.isSome_iff_exists.mp h
    simp [convertCell, hq]

/-- The conversion of a convertible cell is itself convertible. -/
lemma convert_parses (parse : String → Option ℚ) (c : Cell)
    (h : cellParses parse c = true) :
    cellParses parse (convertCell parse c) = true := by
  cases c with
  | null => rfl
  | num q => rfl
  | str s =>
    simp only [cellParses] at h
    obtain ⟨q, hq⟩ := Option.isSome_iff_exists.mp h
    simp [convertCell, hq, cellParses]

/-- Converting twice is the same as once on a convertible cell. -/
lemma convert_convert (parse : String → Option ℚ) (c : Cell)
    (h : cellParses parse c = true) :
    convertCell parse (convertCell parse c) = convertCell parse c := by
  cases c with
  | null => rfl
  | num q => rfl
  | str s =>
    simp only [cellParses] at h
    obtain ⟨q, hq⟩ := Option.isSome_iff_exists.mp h
    simp [convertCell, hq]

/-- Replacing the sentinel twice in a column is the same as once. -/
lemma replaceSentinel_idem (sv : String) (iv : ℚ) (cells : List Cell) :
    replaceSentinel sv iv (replaceSentinel sv iv cells) = replaceSentinel sv iv cells := by
  simp [replaceSentinel, List.map_map, Function.comp_def, replaceCell_replaceCell]

/-- The per-column pass of `impute_small_cells` is idempotent: after the
first pass the sentinel no longer occurs, and numeric conversion is stable. -/
lemma imputeCol_idem (parse : String → Option ℚ) (sv : String) (iv : ℚ)
    (cells : List Cell) :
    imputeCol parse sv iv (imputeCol parse sv iv cells) = imputeCol parse sv iv cells := by
  by_cases hall : (replaceSentinel sv iv cells).all (cellParses parse) = true
  · have h1 : imputeCol parse sv iv cells =
        (replaceSentinel sv iv cells).map (convertCell parse) := by
      unfold imputeCol toNumericCol
      rw [if_pos hall]
    rw [h1]
    rw [List.all_eq_true] at hall
    have hrep : replaceSentinel sv iv
          ((replaceSentinel sv iv cells).map (convertCell parse)) =
        (replaceSentinel sv iv cells).map (convertCell parse) := by
      unfold replaceSentinel
      rw [List.map_map]
      apply List.map_congr_left
      intro a ha
      simp only [Function.comp_apply]
      unfold replaceCell
      rw [if_neg (convert_not_str parse a (hall a ha) sv)]
    have hparse : ((replaceSentinel sv iv cells).map (convertCell parse)).all
        (cellParses parse) = true := by
      rw [List.all_eq_true]
      intro c hc
      obtain ⟨a, ha, rfl⟩ := List.mem_map.mp hc
      exact convert_parses parse a (hall a ha)
    have hconv : ((replaceSentinel sv iv cells).map (convertCell parse)).map
          (convertCell parse) =
        (replaceSentinel sv iv cells).map (convertCell parse) := by
      rw [List.map_map]
      apply List.map_congr_left
      intro a ha
      simp only [Function.comp_apply]
      exact convert_convert parse a (hall a ha)
    show toNumericCol parse (replaceSentinel sv iv
      ((replaceSentinel sv iv cells).map (convertCell parse))) = _
    rw [hrep]
    unfold toNumericCol
    rw [if_pos hparse, hconv]
  · have h1 : imputeCol parse sv iv cells = replaceSentinel sv iv cells := by
      unfold imputeCol toNumericCol
      rw [if_neg hall]
    rw [h1]
    show toNumericCol parse (replaceSentinel sv iv (replaceSentinel sv iv cells)) = _
    rw [replaceSentinel_idem]
    unfold toNumericCol
    rw [if_neg hall]

/-- The per-column loop of `impute_small_cells` is the map that transforms
each column whose name occurs in the target list (a name listed twice is
absorbed by `imputeCol_idem`). -/
lemma impute_fold_eq_map (parse : String → Option ℚ) (sv : String) (iv : ℚ)
    (names : List String) (d : DF) :
    names.foldl (fun dd col => setColVal dd col (imputeCol parse sv iv)) d =
      d.map (fun p =>
        if names.contains p.1 then (p.1, imputeCol parse sv iv p.2) else p) := by
  induction names generalizing d with
  | nil => simp
  | cons n ns ih =>
    rw [List.foldl_cons, ih]
    unfold setColVal
    rw [List.map_map]
    apply List.map_congr_left
    intro p hp
    by_cases h1 : p.1 = n
    · by_cases h2 : ns.contains p.1 <;>
        simp [Function.comp_def, h1, h2, imputeCol_idem]
    · by_cases h2 : ns.contains p.1 <;>
        simp [Function.comp_def, h1, h2, Ne.symm h1]

/-- `impute_small_cells` in closed form: the map over columns. -/
lemma impute_small_cells_eq_map (parse : String → Option ℚ) (d : DF)
    (columns : Option (List String)) (sv : String) (iv : ℚ) :
    impute_small_cells parse d columns sv iv =
      d.map (fun p =>
        if (columns.getD (colNames d)).contains p.1 then
          (p.1, imputeCol parse sv iv p.2)
        else p) := by
  simp only [impute_small_cells]
  exact impute_fold_eq_map parse sv iv _ d

/-- Imputation does not change the column names. -/
lemma impute_small_cells_colNames (parse : String → Option ℚ) (d : DF)
    (columns : Option (List String)) (sv : String) (iv : ℚ) :
    colNames (impute_small_cells parse d columns sv iv) = colNames d := by
  rw [impute_small_cells_eq_map]
  unfold colNames
  rw [List.map_map]
  apply List.map_congr_left
  intro p hp
  simp only [Function.comp_apply]
  split <;> rfl

/-- C7: small-cell imputation is idempotent — for every DataFrame, every
choice of target columns, every sentinel/surrogate pair and every
`pd.to_numeric` parser, a second application of `impute_small_cells` is a
no-op. -/
theorem impute_small_cells_idempotent (parse : String → Option ℚ) (d : DF)
    (columns : Option (List String)) (sentinel : String) (surrogate : ℚ) :
    impute_small_cells parse
        (impute_small_cells parse d columns sentinel surrogate)
        columns sentinel surrogate =
      impute_small_cells parse d columns sentinel surrogate := by
  rw [impute_small_cells_eq_map parse
    (impute_small_cells parse d columns sentinel surrogate) columns sentinel surrogate]
  rw [impute_small_cells_colNames]
  rw [impute_small_cells_eq_map parse d columns sentinel surrogate]
  rw [List.map_map]
  apply List.map_congr_left
  intro p hp
  by_cases h : p.1 ∈ columns.getD (colNames d) <;>
    simp [Function.comp_def, h, imputeCol_idem]

/-- Pointwise vector addition is commutative. -/
lemma addVals_comm : ∀ xs ys : List ℚ, addVals xs ys = addVals ys xs
  | [], ys => by cases ys <;> simp [addVals]
  | x :: xs, [] => by simp [addVals]
  | x :: xs, y :: ys => by
    simp only [addVals]
    rw [addVals_comm xs ys, add_comm]

/-- Pointwise vector addition is associative. -/
lemma addVals_assoc : ∀ xs ys zs : List ℚ,
    addVals (addVals xs ys) zs = addVals xs (addVals ys zs)
  | [], ys, zs => by simp [addVals]
  | x :: xs, [], zs => by simp [addVals]
  | x :: xs, y :: ys, [] => by simp [addVals]
  | x :: xs, y :: ys, z :: zs => by
    simp only [addVals]
    rw [addVals_assoc xs ys zs, add_assoc]

/-- Pointwise vector addition is left-commutative. -/
lemma addVals_left_comm (xs ys zs : List ℚ) :
    addVals xs (addVals ys zs) = addVals ys (addVals xs zs) := by
  rw [← addVals_assoc, addVals_comm xs ys, addVals_assoc]

/-- The per-region sum is invariant under permutation of the tagged rows. -/
lemma sumFor_perm (k : String) {t₁ t₂ : List (Option String × List ℚ)}
    (h : t₁.Perm t₂) : sumFor k t₁ = sumFor k t₂ := by
  induction h with
  | nil => rfl
  | cons x l₁ ih =>
    unfold sumFor at ih ⊢
    simp only [List.foldr_cons]
    rw [ih]
  | swap x y l =>
    unfold sumFor
    simp only [List.foldr_cons]
    by_cases hx : x.1 = some k <;> by_cases hy : y.1 = some k <;>
      simp [hx, hy, addVals_left_comm]
  | trans _ _ ih₁ ih₂ => exact ih₁.trans ih₂

/-- The sorted deduplicated group keys are invariant under permutation. -/
lemma groupKeys_perm {t₁ t₂ : List (Option String × List ℚ)} (h : t₁.Perm t₂) :
    groupKeys t₁ = groupKeys t₂ := by
  unfold groupKeys
  have hp : ((t₁.filterMap Prod.fst).dedup).Perm ((t₂.filterMap Prod.fst).dedup) :=
    (h.filterMap Prod.fst).dedup
  have hs₁ : List.Sorted (fun a b : String => a ≤ b)
      (List.insertionSort (· ≤ ·) (t₁.filterMap Prod.fst).dedup) :=
    List.sorted_insertionSort _ _
  have hs₂ : List.Sorted (fun a b : String => a ≤ b)
      (List.insertionSort (· ≤ ·) (t₂.filterMap Prod.fst).dedup) :=
    List.sorted_insertionSort _ _
  exact List.eq_of_perm_of_sorted
    ((List.perm_insertionSort _ _).trans (hp.trans (List.perm_insertionSort _ _).symm))
    hs₁ hs₂

/-- C8: region aggregation is order-invariant — permuting the input rows
leaves the per-region grouped sums (hence the regional totals, which are
one of the aggregated columns) unchanged. -/
theorem region_aggregate_perm_invariant (mapping : List (String × String))
    (rows₁ rows₂ : List CountRow) (h : rows₁.Perm rows₂) :
    region_aggregate mapping rows₁ = region_aggregate mapping rows₂ := by
  have ht : (add_census_region_rows mapping rows₁).Perm
      (add_census_region_rows mapping rows₂) := h.map _
  simp only [region_aggregate]
  rw [groupKeys_perm ht]
  apply List.map_congr_left
  intro k hk
  rw [sumFor_perm k ht]

/-- Witness for C8 at a concrete two-row transposition. -/
theorem region_aggregate_perm_invariant_witness :
    region_aggregate state_to_region [⟨"Ohio", [1, 2]⟩, ⟨"Texas", [3, 4]⟩] =
      region_aggregate state_to_region [⟨"Texas", [3, 4]⟩, ⟨"Ohio", [1, 2]⟩] :=
  region_aggregate_perm_invariant state_to_region _ _
    (List.Perm.swap (⟨"Texas", [3, 4]⟩ : CountRow) (⟨"Ohio", [1, 2]⟩ : CountRow) [])

/-- Allocating a copy and then mutating only the fresh cell leaves every
previously allocated frame untouched. -/
lemma frame_aux (h : Heap) (r : ℕ) (v w : DF) (hr : r < h.length) :
    (heapSet (h ++ [v]) h.length w)[r]? = h[r]? := by
  unfold heapSet
  rw [List.getElem?_set_ne (by omega), List.getElem?_append, if_pos hr]

/-- C10: every public cleaning/transformation function copies its input
frame before modifying anything: after any of the five calls, the caller's
DataFrame at reference `r` is unchanged on the heap. -/
theorem cleaning_functions_preserve_caller (hp : Heap) (r : ℕ)
    (parse : String → Option ℚ) (columns : Option (List String))
    (sentinel state_col med_col : String) (count_col : Option String)
    (surrogate : ℚ) (mapping : List (String × String))
    (hr : r < hp.length) :
    ((run_impute_small_cells parse hp r columns sentinel surrogate).1)[r]? = hp[r]? ∧
    ((run_clean_column_names hp r).1)[r]? = hp[r]? ∧
    ((run_add_census_region hp r state_col mapping).1)[r]? = hp[r]? ∧
    ((run_clean_medication_data hp r state_col med_col count_col sentinel).1)[r]? = hp[r]? ∧
    ((run_clean_procedure_data hp r state_col).1)[r]? = hp[r]? :=
  ⟨frame_aux hp r _ _ hr, frame_aux hp r _ _ hr, frame_aux hp r _ _ hr,
   frame_aux hp r _ _ hr, frame_aux hp r _ _ hr⟩

/-- Witness for C10 on a one-frame heap. -/
theorem cleaning_functions_preserve_caller_witness :
    0 < ([([("state", [Cell.str "Ohio"])] : DF)] : Heap).length ∧
    ((run_clean_column_names [([("state", [Cell.str "Ohio"])] : DF)] 0).1)[0]? =
      ([([("state", [Cell.str "Ohio"])] : DF)] : Heap)[0]? :=
  ⟨by decide,
   (cleaning_functions_preserve_caller [([("state", [Cell.str "Ohio"])] : DF)] 0
      (fun _ => none) none "10 or fewer" "state" "All Medications" none 5
      state_to_region (by decide)).2.1⟩

/-- C4 counterexample: on the all-zero 2×2 table — a table every one of
whose rows and columns is all-zero — the chi-square operation does NOT
raise: the expected frequencies are all `0/0 = NaN`, the zero-element check
passes (`NaN == 0` is false), and scipy returns a NaN statistic and NaN
p-value.  (The survival function is irrelevant on a NaN statistic and is
instantiated arbitrarily.) -/
theorem chi2_all_zero_counterexample :
    chi2_contingency (fun _ q => q) [[0, 0], [0, 0]] true =
      Except.ok ⟨none, none, 1⟩ := by
  rfl

/-- C4 amended: for every rectangular table of nonnegative counts with a
POSITIVE grand total, if some row or some column is all-zero then the
chi-square operation fails with scipy's zero-expected-frequency
`ValueError`, before any statistic or p-value is computed. -/
theorem chi2_degenerate_table_error (sf : ℕ → ℚ → ℚ) (corr : Bool)
    (m : List (List ℤ)) (c : ℕ)
    (hne : m ≠ [])
    (hc : 0 < c)
    (hrect : ∀ row ∈ m, row.length = c)
    (hnn : ∀ row ∈ m, ∀ v ∈ row, 0 ≤ v)
    (htot : 0 < grandTotal m)
    (hdeg : (∃ row ∈ m, row.sum = 0) ∨
      (∃ j, j < c ∧ ∀ row ∈ m, row.getD j 0 = 0)) :
    chi2_contingency sf m corr =
      Except.error
        "The internally computed table of expected frequencies has a zero element." := by
  have hNnz : grandTotal m ≠ 0 := ne_of_gt htot
  have hm0 : 0 < m.length := List.length_pos.mpr hne
  have hcols : ncolsOf m = c := by
    cases m with
    | nil => exact absurd rfl hne
    | cons a t => simpa [ncolsOf] using hrect a (List.mem_cons_self a t)
  have h1 : (m.any fun row => row.any fun v => decide (v < 0)) = false := by
    simp only [List.any_eq_false, List.any_eq_true, decide_eq_true_eq, not_exists,
      not_and, not_lt]
    exact fun row hrow v hv => hnn row hrow v hv
  have h2 : ¬((m.map List.length).sum = 0) := by
    cases m with
    | nil => exact absurd rfl hne
    | cons a t =>
      have ha : a.length = c := hrect a (List.mem_cons_self a t)
      simp only [List.map_cons, List.sum_cons, ha]
      omega
  have h3 : ((expectedFreq m).any fun row => row.any fun e => e == some (0 : ℚ)) = true := by
    rw [List.any_eq_true]
    rcases hdeg with ⟨row, hrowm, hsum⟩ | ⟨j, hj, hzero⟩
    · obtain ⟨i, hi, hrowi⟩ := List.getElem_of_mem hrowm
      refine ⟨(List.range (ncolsOf m)).map fun j =>
        fdiv (rowSum m i * colSum m j) (grandTotal m), ?_, ?_⟩
      · unfold expectedFreq
        exact List.mem_map.mpr ⟨i, List.mem_range.mpr hi, rfl⟩
      · rw [List.any_eq_true]
        refine ⟨fdiv (rowSum m i * colSum m 0) (grandTotal m), ?_, ?_⟩
        · exact List.mem_map.mpr ⟨0, List.mem_range.mpr (hcols ▸ hc), rfl⟩
        · have hrs : rowSum m i = 0 := by
            unfold rowSum
            rw [List.getD_eq_getElem?_getD, List.getElem?_eq_getElem hi]
            simpa using hrowi ▸ hsum
          rw [hrs]
          unfold fdiv
          rw [if_neg hNnz]
          simp
    · have hcs : colSum m j = 0 := by
        unfold colSum
        apply List.sum_eq_zero
        intro x hx
        obtain ⟨row, hrow, rfl⟩ := List.mem_map.mp hx
        exact hzero row hrow
      refine ⟨(List.range (ncolsOf m)).map fun k =>
        fdiv (rowSum m 0 * colSum m k) (grandTotal m), ?_, ?_⟩
      · unfold expectedFreq
        exact List.mem_map.mpr ⟨0, List.mem_range.mpr hm0, rfl⟩
      · rw [List.any_eq_true]
        refine ⟨fdiv (rowSum m 0 * colSum m j) (grandTotal m), ?_, ?_⟩
        · exact List.mem_map.mpr ⟨j, List.mem_range.mpr (hcols ▸ hj), rfl⟩
        · rw [hcs]
          unfold fdiv
          rw [if_neg hNnz]
          simp
  simp only [chi2_contingency, h1, Bool.false_eq_true, if_false, if_neg h2, h3, if_true]

/-- Witness for C4's amended theorem: a 2×2 table with an all-zero first
row and grand total 3. -/
theorem chi2_degenerate_table_error_witness :
    (0 < grandTotal [[0, 0], [1, 2]] ∧
      (∃ row ∈ [[(0 : ℤ), 0], [1, 2]], row.sum = 0)) ∧
    chi2_contingency (fun _ q => q) [[0, 0], [1, 2]] true =
      Except.error
        "The internally computed table of expected frequencies has a zero element." :=
  ⟨⟨by decide, by decide⟩,
   chi2_degenerate_table_error (fun _ q => q) true [[0, 0], [1, 2]] 2
     (by decide) (by decide) (by decide) (by decide) (by decide)
     (Or.inl (by decide))⟩

/-- The heart of the Wilson-interval correctness: the distance from the
point estimate to the interval centre is at most the margin, for any
proportion `p ∈ [0, 1]`, any `n > 0` and any critical value `z ≥ 0`. -/
lemma wilson_core (p z n : ℝ) (hn : 0 < n) (hz : 0 ≤ z) (hp0 : 0 ≤ p)
    (hp1 : p ≤ 1) :
    |(p + z ^ 2 / (2 * n)) / (1 + z ^ 2 / n) - p| ≤
      z * Real.sqrt ((p * (1 - p) + z ^ 2 / (4 * n)) / n) / (1 + z ^ 2 / n) := by
  have hq : (0:ℝ) ≤ p * (1 - p) := mul_nonneg hp0 (by linarith)
  have hD : (0:ℝ) < 1 + z ^ 2 / n := by positivity
  have hS : (0:ℝ) ≤ (p * (1 - p) + z ^ 2 / (4 * n)) / n := by positivity
  have hcenter : (p + z ^ 2 / (2 * n)) / (1 + z ^ 2 / n) - p =
      (z ^ 2 * (1 - 2 * p) / (2 * n)) / (1 + z ^ 2 / n) := by
    field_simp
    ring
  rw [hcenter, abs_div, abs_of_pos hD]
  apply (div_le_div_iff_of_pos_right hD).mpr
  have hZS : 0 ≤ z * Real.sqrt ((p * (1 - p) + z ^ 2 / (4 * n)) / n) :=
    mul_nonneg hz (Real.sqrt_nonneg _)
  have poly : z ^ 4 * (1 - 2 * p) ^ 2 ≤
      4 * n * z ^ 2 * (p * (1 - p)) + z ^ 4 := by
    nlinarith [mul_nonneg (mul_nonneg hq (sq_nonneg z)) (sq_nonneg z),
      mul_nonneg (mul_nonneg hq (sq_nonneg z)) hn.le]
  have hsq : (z ^ 2 * (1 - 2 * p) / (2 * n)) ^ 2 ≤
      z ^ 2 * ((p * (1 - p) + z ^ 2 / (4 * n)) / n) := by
    have hL : (z ^ 2 * (1 - 2 * p) / (2 * n)) ^ 2 =
        z ^ 4 * (1 - 2 * p) ^ 2 / (4 * n ^ 2) := by
      field_simp
      ring
    have hR : z ^ 2 * ((p * (1 - p) + z ^ 2 / (4 * n)) / n) =
        (4 * n * z ^ 2 * (p * (1 - p)) + z ^ 4) / (4 * n ^ 2) := by
      field_simp
      ring
    rw [hL, hR]
    exact (div_le_div_iff_of_pos_right (by positivity)).mpr poly
  have h2 : (z ^ 2 * (1 - 2 * p) / (2 * n)) ^ 2 ≤
      (z * Real.sqrt ((p * (1 - p) + z ^ 2 / (4 * n)) / n)) ^ 2 := by
    rw [mul_pow, Real.sq_sqrt hS]
    exact hsq
  calc |z ^ 2 * (1 - 2 * p) / (2 * n)|
      = Real.sqrt ((z ^ 2 * (1 - 2 * p) / (2 * n)) ^ 2) :=
        (Real.sqrt_sq_eq_abs _).symm
    _ ≤ Real.sqrt ((z * Real.sqrt ((p * (1 - p) + z ^ 2 / (4 * n)) / n)) ^ 2) :=
        Real.sqrt_le_sqrt h2
    _ = z * Real.sqrt ((p * (1 - p) + z ^ 2 / (4 * n)) / n) := Real.sqrt_sq hZS

/-- C5: for `0 ≤ x ≤ n`, `n > 0` and any nonnegative critical value (the
source's `z = norm.ppf(0.975) ≈ 1.96`), the Wilson interval returned by
`proportion_ci` brackets the point estimate on the percentage scale:
`0 ≤ lower ≤ (x/n)·100 ≤ upper ≤ 100`. -/
theorem proportion_ci_wilson_bounds (x n z : ℝ)
    (hx : 0 ≤ x) (hxn : x ≤ n) (hn : 0 < n) (hz : 0 ≤ z) :
    0 ≤ (proportion_ci x n z).1 ∧
    (proportion_ci x n z).1 ≤ x / n * 100 ∧
    x / n * 100 ≤ (proportion_ci x n z).2 ∧
    (proportion_ci x n z).2 ≤ 100 := by
  have hp0 : 0 ≤ x / n := div_nonneg hx hn.le
  have hp1 : x / n ≤ 1 := (div_le_one hn).mpr hxn
  have hcore := wilson_core (x / n) z n hn hz hp0 hp1
  obtain ⟨hlo, hhi⟩ := abs_le.mp hcore
  have heq : proportion_ci x n z =
      (max 0 ((x / n + z ^ 2 / (2 * n)) / (1 + z ^ 2 / n) -
          z * Real.sqrt ((x / n * (1 - x / n) + z ^ 2 / (4 * n)) / n) /
            (1 + z ^ 2 / n)) * 100,
       min 1 ((x / n + z ^ 2 / (2 * n)) / (1 + z ^ 2 / n) +
          z * Real.sqrt ((x / n * (1 - x / n) + z ^ 2 / (4 * n)) / n) /
            (1 + z ^ 2 / n)) * 100) := by
    simp only [proportion_ci, hn.ne', if_false]
  rw [heq]
  refine ⟨?_, ?_, ?_, ?_⟩
  · exact mul_nonneg (le_max_left 0 _) (by norm_num)
  · exact mul_le_mul_of_nonneg_right
      (max_le hp0 (by linarith)) (by norm_num)
  · exact mul_le_mul_of_nonneg_right
      (le_min hp1 (by linarith)) (by norm_num)
  · have h1 : min 1 ((x / n + z ^ 2 / (2 * n)) / (1 + z ^ 2 / n) +
        z * Real.sqrt ((x / n * (1 - x / n) + z ^ 2 / (4 * n)) / n) /
          (1 + z ^ 2 / n)) ≤ 1 := min_le_left _ _
    nlinarith [h1]

/-- Witness for C5 at `x = 1`, `n = 2`, `z = 0`. -/
theorem proportion_ci_wilson_bounds_witness :
    ((0:ℝ) ≤ 1 ∧ (1:ℝ) ≤ 2 ∧ (0:ℝ) < 2 ∧ (0:ℝ) ≤ 0) ∧
    (0 ≤ (proportion_ci 1 2 0).1 ∧
      (proportion_ci 1 2 0).1 ≤ 1 / 2 * 100 ∧
      1 / 2 * 100 ≤ (proportion_ci 1 2 0).2 ∧
      (proportion_ci 1 2 0).2 ≤ 100) :=
  ⟨⟨by norm_num, by norm_num, by norm_num, le_refl 0⟩,
   proportion_ci_wilson_bounds 1 2 0 (by norm_num) (by norm_num) (by norm_num)
     (le_refl 0)⟩

/-- C6 counterexample: the source DELETES `(` instead of collapsing it to an
underscore: the header `"a(b"` normalizes to `"ab"`, while the
specification's rule (every run of whitespace and of `- / ( ) , .` becomes
a single underscore) yields `"a_b"`. -/
theorem clean_column_name_counterexample :
    clean_column_name "a(b" = "ab" ∧ spec_normalize "a(b" = "a_b" ∧
    clean_column_name "a(b" ≠ spec_normalize "a(b" := by
  refine ⟨rfl, rfl, ?_⟩
  decide

/-- ASCII lower-casing never produces an ASCII upper-case letter. -/
lemma toLower_isUpper_false (c : Char) : (Char.toLower c).isUpper = false := by
  simp only [Char.toLower]
  split_ifs with h
  · obtain ⟨h1, h2⟩ := h
    generalize hn : c.toNat = n at h1 h2
    interval_cases n <;> decide
  · by_contra hb
    rw [Bool.not_eq_false] at hb
    apply h
    simp only [Char.isUpper, Bool.and_eq_true, decide_eq_true_eq] at hb
    obtain ⟨hb1, hb2⟩ := hb
    rw [ge_iff_le, UInt32.le_def, BitVec.le_def] at hb1
    rw [UInt32.le_def, BitVec.le_def] at hb2
    have e65 : ((65 : UInt32)).toBitVec.toNat = 65 := by decide
    have e90 : ((90 : UInt32)).toBitVec.toNat = 90 := by decide
    rw [e65] at hb1
    rw [e90] at hb2
    exact ⟨hb1, hb2⟩

/-- What `mapReplace` emits is neither a replaced/deleted character nor an
ASCII upper-case letter, provided its input is already lower-cased. -/
lemma mapReplace_good (c c' : Char)
    (h : mapReplace (Char.toLower c) = some c') :
    (!(isReplacedChar c') && !c'.isUpper) = true := by
  unfold mapReplace at h
  split_ifs at h with h1 h2
  · obtain rfl : c' = '_' := by simpa using h.symm
    decide
  · obtain rfl : c' = Char.toLower c := by simpa using h.symm
    have hup := toLower_isUpper_false c
    have hrep : isReplacedChar (Char.toLower c) = false := by
      simp only [isReplacedChar, Bool.or_eq_false_iff, decide_eq_false_iff_not]
      push_neg at h1 h2
      tauto
    simp [hrep, hup]

/-- Every character of the first pass (lower-case, replace, delete) is good. -/
lemma stage1_good (s : String) :
    ∀ c ∈ (s.data.map Char.toLower).filterMap mapReplace,
      (!(isReplacedChar c) && !c.isUpper) = true := by
  intro c hc
  obtain ⟨a, ha, hfa⟩ := List.mem_filterMap.mp hc
  obtain ⟨b, hb, rfl⟩ := List.mem_map.mp ha
  exact mapReplace_good b c hfa

/-- One collapse pass only reuses characters of its input. -/
lemma mem_replacePair : ∀ (l : List Char) (c : Char),
    c ∈ replacePairUnderscore l → c ∈ l
  | [], c, h => by simp [replacePairUnderscore] at h
  | [a], c, h => by simpa [replacePairUnderscore] using h
  | a :: b :: rest, c, h => by
    by_cases hab : a = '_' ∧ b = '_'
    · rw [replacePairUnderscore, if_pos hab] at h
      rcases List.mem_cons.mp h with h1 | h2
      · simp [h1, hab.1]
      · have := mem_replacePair rest c h2
        simp only [List.mem_cons]
        tauto
    · rw [replacePairUnderscore, if_neg hab] at h
      rcases List.mem_cons.mp h with h1 | h2
      · simp [h1]
      · have := mem_replacePair (b :: rest) c h2
        simp only [List.mem_cons] at this ⊢
        tauto

/-- The collapse loop only reuses characters of its input. -/
lemma mem_collapseFuel : ∀ (fuel : ℕ) (l : List Char) (c : Char),
    c ∈ collapseFuel fuel l → c ∈ l
  | 0, l, c, h => h
  | fuel + 1, l, c, h => by
    rw [collapseFuel] at h
    split_ifs at h with hd
    · exact mem_replacePair l c (mem_collapseFuel fuel _ c h)
    · exact h

/-- One collapse pass never lengthens the list. -/
lemma length_replacePair_le : ∀ l : List Char,
    (replacePairUnderscore l).length ≤ l.length
  | [] => by simp [replacePairUnderscore]
  | [a] => by simp [replacePairUnderscore]
  | a :: b :: rest => by
    rw [replacePairUnderscore]
    split_ifs with hab
    · have := length_replacePair_le rest
      simp only [List.length_cons]
      omega
    · have := length_replacePair_le (b :: rest)
      simp only [List.length_cons] at this ⊢
      omega

/-- A productive collapse pass strictly shortens the list. -/
lemma length_replacePair_lt : ∀ l : List Char, hasDouble l = true →
    (replacePairUnderscore l).length < l.length
  | [], h => by simp [hasDouble] at h
  | [a], h => by simp [hasDouble] at h
  | a :: b :: rest, h => by
    rw [replacePairUnderscore]
    split_ifs with hab
    · have := length_replacePair_le rest
      simp only [List.length_cons]
      omega
    · have hd : hasDouble (b :: rest) = true := by
        rw [hasDouble] at h
        rcases Bool.or_eq_true_iff.mp h with h1 | h2
        · exact absurd (by
            obtain ⟨ha, hb⟩ := Bool.and_eq_true_iff.mp h1
            exact ⟨by simpa using ha, by simpa using hb⟩) hab
        · exact h2
      have := length_replacePair_lt (b :: rest) hd
      simp only [List.length_cons] at this ⊢
      omega

/-- With fuel at least the length of the list, the collapse loop reaches its
fixpoint: no two adjacent underscores remain. -/
lemma hasDouble_collapseFuel : ∀ (fuel : ℕ) (l : List Char),
    l.length ≤ fuel → hasDouble (collapseFuel fuel l) = false := by
  intro fuel
  induction fuel with
  | zero =>
    intro l hl
    have : l = [] := List.eq_nil_of_length_eq_zero (Nat.le_zero.mp hl)
    subst this
    rfl
  | succ fuel ih =>
    intro l hl
    rw [collapseFuel]
    split_ifs with hd
    · exact ih _ (by have := length_replacePair_lt l hd; omega)
    · exact Bool.not_eq_true _ ▸ hd

/-- `hasDouble` is monotone along the tail. -/
lemma hasDouble_tail (c : Char) (l : List Char) (h : hasDouble (c :: l) = false) :
    hasDouble l = false := by
  cases l with
  | nil => rfl
  | cons d t =>
    rw [hasDouble] at h
    exact (Bool.or_eq_false_iff.mp h).2

/-- Dropping a prefix cannot create adjacent underscores. -/
lemma hasDouble_dropWhile (p : Char → Bool) : ∀ l : List Char,
    hasDouble l = false → hasDouble (l.dropWhile p) = false
  | [], h => h
  | c :: t, h => by
    rw [List.dropWhile_cons]
    split_ifs with hp
    · exact hasDouble_dropWhile p t (hasDouble_tail c t h)
    · exact h

/-- Dropping the trailing underscore run returns a prefix of the input. -/
lemma dropTrailing_eq_take : ∀ l : List Char,
    ∃ k, dropTrailingUnderscores l = l.take k
  | [] => ⟨0, rfl⟩
  | c :: rest => by
    obtain ⟨k, hk⟩ := dropTrailing_eq_take rest
    by_cases h1 : (dropTrailingUnderscores rest).isEmpty
    · by_cases hc : c = '_'
      · exact ⟨0, by simp [dropTrailingUnderscores, h1, hc]⟩
      · exact ⟨1, by simp [dropTrailingUnderscores, h1, hc]⟩
    · refine ⟨k + 1, ?_⟩
      simp only [dropTrailingUnderscores]
      rw [if_neg h1, hk, List.take_succ_cons]

/-- Taking a prefix cannot create adjacent underscores. -/
lemma hasDouble_take : ∀ (l : List Char) (n : ℕ),
    hasDouble l = false → hasDouble (l.take n) = false
  | [], n, _ => by simp [hasDouble]
  | [a], n, _ => by cases n <;> simp [hasDouble]
  | a :: b :: rest, 0, _ => by simp [hasDouble]
  | a :: b :: rest, 1, _ => by simp [hasDouble]
  | a :: b :: rest, n + 2, h => by
    rw [hasDouble] at h
    obtain ⟨h1, h2⟩ := Bool.or_eq_false_iff.mp h
    rw [List.take_succ_cons, List.take_succ_cons, hasDouble, Bool.or_eq_false_iff]
    refine ⟨h1, ?_⟩
    have := hasDouble_take (b :: rest) (n + 1) h2
    rwa [List.take_succ_cons] at this

/-- The head surviving `dropWhile` fails the predicate. -/
lemma head?_dropWhile (p : Char → Bool) : ∀ (l : List Char) (c : Char),
    (l.dropWhile p).head? = some c → p c = false
  | [], c, h => by simp at h
  | a :: t, c, h => by
    rw [List.dropWhile_cons] at h
    split_ifs at h with hp
    · exact head?_dropWhile p t c h
    · rw [List.head?_cons, Option.some.injEq] at h
      rw [← h]
      exact Bool.not_eq_true _ ▸ hp

/-- Dropping the trailing underscores preserves the head (or empties the
list). -/
lemma dropTrailing_head? : ∀ l : List Char,
    dropTrailingUnderscores l = [] ∨
      (dropTrailingUnderscores l).head? = l.head?
  | [] => Or.inl rfl
  | c :: rest => by
    by_cases h1 : (dropTrailingUnderscores rest).isEmpty
    · by_cases hc : c = '_'
      · left
        simp [dropTrailingUnderscores, h1, hc]
      · right
        simp [dropTrailingUnderscores, h1, hc]
    · right
      simp [dropTrailingUnderscores, h1]

/-- The last character after dropping trailing underscores is never an
underscore. -/
lemma getLast?_dropTrailing : ∀ (l : List Char) (x : Char),
    (dropTrailingUnderscores l).getLast? = some x → x ≠ '_'
  | [], x, h => by simp [dropTrailingUnderscores] at h
  | c :: rest, x, h => by
    simp only [dropTrailingUnderscores] at h
    split_ifs at h with h1 h2
    · simp at h
    · rw [List.getLast?_singleton, Option.some.injEq] at h
      rw [← h]
      exact h2
    · obtain ⟨d, r', hdr⟩ :=
        List.exists_cons_of_ne_nil (List.isEmpty_eq_false.mp (by simpa using h1))
      rw [hdr, List.getLast?_cons_cons] at h
      exact getLast?_dropTrailing rest x (hdr ▸ h)

/-- C6 amended: every normalized header is a canonical token in the sense of
the source's actual rules — it contains none of the replaced characters
(space, `-`, `/`) nor the deleted ones (`(`, `)`, `,`, `.`), no ASCII
upper-case letter, no two adjacent underscores, and neither starts nor ends
with an underscore. -/
theorem clean_column_name_good_token (s : String) :
    goodToken (clean_column_name s) = true := by
  have hd1 : hasDouble (collapseUnderscores
      ((s.data.map Char.toLower).filterMap mapReplace)) = false :=
    hasDouble_collapseFuel _ _ (le_refl _)
  have hdw : hasDouble ((collapseUnderscores
      ((s.data.map Char.toLower).filterMap mapReplace)).dropWhile
        fun c => c == '_') = false :=
    hasDouble_dropWhile _ _ hd1
  obtain ⟨k, hk⟩ := dropTrailing_eq_take ((collapseUnderscores
      ((s.data.map Char.toLower).filterMap mapReplace)).dropWhile
        fun c => c == '_')
  have hmem2 : ∀ c ∈ (clean_column_name s).data,
      c ∈ (s.data.map Char.toLower).filterMap mapReplace := by
    intro c hc
    have hc0 : c ∈ stripUnderscores (collapseUnderscores
        ((s.data.map Char.toLower).filterMap mapReplace)) := hc
    rw [stripUnderscores, hk] at hc0
    have hc1 := List.take_subset k _ hc0
    have hc2 := (List.dropWhile_sublist _).subset hc1
    exact mem_collapseFuel _ _ c hc2
  have hall : (clean_column_name s).data.all
      (fun c => !(isReplacedChar c) && !c.isUpper) = true := by
    rw [List.all_eq_true]
    intro c hc
    exact stage1_good s c (hmem2 c hc)
  have hdbl : hasDouble (clean_column_name s).data = false := by
    show hasDouble (stripUnderscores _) = false
    rw [stripUnderscores, hk]
    exact hasDouble_take _ k hdw
  have hhead : (clean_column_name s).data.head?.elim false
      (fun c => decide (c = '_')) = false := by
    cases hh : (clean_column_name s).data.head? with
    | none => rfl
    | some c =>
      have hh' : (stripUnderscores (collapseUnderscores
          ((s.data.map Char.toLower).filterMap mapReplace))).head? = some c := hh
      rw [stripUnderscores] at hh'
      rcases dropTrailing_head? ((collapseUnderscores
          ((s.data.map Char.toLower).filterMap mapReplace)).dropWhile
            fun c => c == '_') with h | h
      · rw [h] at hh'
        simp at hh'
      · rw [h] at hh'
        have h3 := head?_dropWhile _ _ c hh'
        have h4 : c ≠ '_' := by simpa using h3
        simp [h4]
  have hlast : (clean_column_name s).data.getLast?.elim false
      (fun c => decide (c = '_')) = false := by
    cases hh : (clean_column_name s).data.getLast? with
    | none => rfl
    | some c =>
      have hh' : (dropTrailingUnderscores ((collapseUnderscores
          ((s.data.map Char.toLower).filterMap mapReplace)).dropWhile
            fun c => c == '_')).getLast? = some c := hh
      have h4 := getLast?_dropTrailing _ c hh'
      simp [h4]
  unfold goodToken
  rw [hall, hdbl, hhead, hlast]
  rfl

end TNCosmos
